import Mathlib

set_option maxRecDepth 4000
set_option maxHeartbeats 1000000

/-!
Verification of the mermaid-diagram placeholder pipeline of
`convert_md_to_html.py` (and the body construction of `convert_md_to_pdf.py`).

Strings are modelled as `List Char`.  The external Markdown renderer
(`markdown.markdown`) is modelled as an opaque pure function
`render : List Char → List Char`, following the repository's own contract for
it ("Markdown text in, HTML text out; no side effects").  The filesystem is
modelled as a map from paths to optional contents.

All scanning/replacement functions are written with explicit fuel so that they
are structurally recursive and hence evaluate inside `decide`/`rfl`.
-/

/-- The backtick character (written via an escape to keep the file ASCII-clean). -/
def tick : Char := '\x60'

/-- The opening delimiter of the regex `(three backticks)mermaid\n(.*?)\n(three backticks)`
from `convert_md_to_html.py` line 12: three backticks, the word `mermaid`, a LF. -/
def openFence : List Char := [tick, tick, tick, 'm', 'e', 'r', 'm', 'a', 'i', 'd', '\n']

/-- The closing delimiter of the same regex: a LF followed by three backticks. -/
def closeFence : List Char := ['\n', tick, tick, tick]

/-- The full fenced text of a diagram block with body `b`, i.e. the string
the first substitution pass of `convert_markdown_to_html` replaces
(line 17: the f-string built from three backticks, `mermaid`, LF, block, LF, three backticks). -/
def fenced (b : List Char) : List Char := openFence ++ (b ++ closeFence)

/-- The constant part of the placeholder `MERMAID_PLACEHOLDER_{i}` (line 16). -/
def phPrefix : List Char :=
  ['M', 'E', 'R', 'M', 'A', 'I', 'D', '_', 'P', 'L', 'A', 'C', 'E', 'H', 'O', 'L', 'D', 'E', 'R', '_']

/-- The placeholder token for ordinal index `i`: `MERMAID_PLACEHOLDER_{i}`. -/
def placeholderL (i : Nat) : List Char := phPrefix ++ (Nat.repr i).data

/-- The opening of the container element inserted at re-insertion (line 28). -/
def divOpen : List Char :=
  ['<', 'd', 'i', 'v', ' ', 'c', 'l', 'a', 's', 's', '=', '"', 'm', 'e', 'r', 'm', 'a', 'i', 'd', '"', '>', '\n']

/-- The closing of the container element inserted at re-insertion (line 28). -/
def divClose : List Char := ['\n', '<', '/', 'd', 'i', 'v', '>']

/-- The container element for a diagram block with body `b`:
`<div class="mermaid">\n{b}\n</div>` (line 28). -/
def mermaidDiv (b : List Char) : List Char := divOpen ++ (b ++ divClose)

/-- `leadsWith pat s` is true when `pat` is an initial segment of `s`. -/
def leadsWith : List Char → List Char → Bool
  | [], _ => true
  | _ :: _, [] => false
  | a :: as, b :: bs => (a == b) && leadsWith as bs

/-- `occursB pat s` is true when `pat` occurs as a contiguous substring of `s`. -/
def occursB (pat : List Char) : List Char → Bool
  | [] => leadsWith pat []
  | c :: rest => leadsWith pat (c :: rest) || occursB pat rest

/-- `noCh c s` is true when the character `c` does not occur in `s`. -/
def noCh (c : Char) (s : List Char) : Bool := s.all (fun d => d != c)

/-- Splits `s` at the first (leftmost) occurrence of `pat`, returning the part
before the occurrence and the part after it; `none` if `pat` does not occur. -/
def splitAtSub? (pat : List Char) : List Char → Option (List Char × List Char)
  | [] => if leadsWith pat [] then some ([], List.drop pat.length []) else none
  | c :: rest =>
    if leadsWith pat (c :: rest) then some ([], List.drop pat.length (c :: rest))
    else (splitAtSub? pat rest).map (fun p => (c :: p.1, p.2))

/-- Fueled version of Python `str.replace(pat, rep)`: scan left to right, on a
match emit `rep` and continue after the matched text (the replacement is not
rescanned), otherwise advance one character.  Fuel `s.length` always suffices. -/
def replaceAllF : Nat → List Char → List Char → List Char → List Char
  | 0, s, _, _ => s
  | _ + 1, [], _, _ => []
  | f + 1, c :: rest, pat, rep =>
    if leadsWith pat (c :: rest) then
      rep ++ replaceAllF f (List.drop pat.length (c :: rest)) pat rep
    else
      c :: replaceAllF f rest pat rep

/-- Python `s.replace(pat, rep)` (all non-overlapping occurrences, left to right). -/
def replaceAll (s pat rep : List Char) : List Char := replaceAllF s.length s pat rep

/-- Fueled scan: all matches of the lazy regex
`(three backticks)mermaid\n(.*?)\n(three backticks)` with `re.DOTALL`
(line 12), in document order, returning the captured bodies.
A leftmost opening delimiter with no closing delimiter anywhere after it ends
the scan with no further matches (as the regex engine would find none either,
since any later opening delimiter also has no closing delimiter after it). -/
def findBlocksF : Nat → List Char → List (List Char)
  | 0, _ => []
  | f + 1, s =>
    match splitAtSub? openFence s with
    | none => []
    | some (_, rest) =>
      match splitAtSub? closeFence rest with
      | none => []
      | some (content, rest2) => content :: findBlocksF f rest2

/-- `re.findall(r'(three backticks)mermaid\n(.*?)\n(three backticks)', s, re.DOTALL)`. -/
def findBlocks (s : List Char) : List (List Char) := findBlocksF s.length s

/-- The first substitution pass of `convert_markdown_to_html` (lines 15-17):
for each block, in order of its ordinal index, replace every occurrence of its
fenced text by its placeholder. -/
def pass1 (s : List Char) (blocks : List (List Char)) : List Char :=
  (blocks.enum).foldl (fun acc ib => replaceAll acc (fenced ib.2) (placeholderL ib.1)) s

/-- The re-insertion pass of `convert_markdown_to_html` (lines 26-29):
for each block, in order of its ordinal index, replace every occurrence of its
placeholder by its container element. -/
def pass2 (h : List Char) (blocks : List (List Char)) : List Char :=
  (blocks.enum).foldl (fun acc ib => replaceAll acc (placeholderL ib.1) (mermaidDiv ib.2)) h

/-- The body transform of `convert_markdown_to_html` (lines 12-29): extract the
diagram blocks, substitute placeholders, run the external renderer, re-insert
the blocks wrapped in container elements. -/
def transformBody (render : List Char → List Char) (s : List Char) : List Char :=
  pass2 (render (pass1 s (findBlocks s))) (findBlocks s)

/-- The HTML body built by `convert_md_to_pdf.py` (lines 11-14): the external
renderer is invoked directly on the raw Markdown text, with no diagram
extraction or placeholder substitution at all. -/
def convert_markdown_to_pdf_html (render : List Char → List Char) (s : List Char) : List Char :=
  render s

/-- `convert_markdown_to_html` (lines 5-103) at the file level: read the source
(propagating a read failure), transform the body, wrap it in the full HTML
document (the wrapper with title, CSS and the mermaid script reference is
abstracted as `wrap`, it plays no role in the claims), write the destination.
The filesystem is a map from paths to optional contents; an error means the
exception of the failed `open` propagated before any write happened. -/
def convert_markdown_to_html (render : List Char → List Char)
    (wrap : List Char → List Char → List Char)
    (fs : List Char → Option (List Char)) (markdown_file html_file : List Char) :
    Except Unit (List Char → Option (List Char)) :=
  match fs markdown_file with
  | none => Except.error ()
  | some markdown_content =>
      Except.ok (fun p =>
        if p = html_file then some (wrap markdown_file (transformBody render markdown_content))
        else fs p)

/-- The filesystem after a run: unchanged when the run failed, the returned
filesystem when it succeeded. -/
def finalFS (fs : List Char → Option (List Char)) :
    Except Unit (List Char → Option (List Char)) → (List Char → Option (List Char))
  | Except.error _ => fs
  | Except.ok fs2 => fs2

/-- `crlfAfter prev s` is true when inside `s` (with `prev` the character just
before `s`) every LF is immediately preceded by a CR. -/
def crlfAfter (prev : Char) : List Char → Bool
  | [] => true
  | c :: rest => ((c != '\n') || (prev == '\r')) && crlfAfter c rest

/-- `crlfOnly s`: `s` uses CRLF line endings only (every LF preceded by CR). -/
def crlfOnly : List Char → Bool
  | [] => true
  | c :: rest => (c != '\n') && crlfAfter c rest

/-- A document consisting of eleven adjacent diagram blocks with distinct
bodies `0`,`1`,...,`9`,`X`. -/
def input11 : List Char :=
  fenced ['0'] ++ (fenced ['1'] ++ (fenced ['2'] ++ (fenced ['3'] ++ (fenced ['4'] ++
    (fenced ['5'] ++ (fenced ['6'] ++ (fenced ['7'] ++ (fenced ['8'] ++ (fenced ['9'] ++
    fenced ['X'])))))))))

/-- Two diagram blocks with byte-identical bodies, separated by a newline. -/
def input2dup : List Char := fenced ['x'] ++ (['\n'] ++ fenced ['x'])

/-- A terminated diagram block whose closing backticks simultaneously start a
second, unterminated opening fence:
`(three backticks)mermaid\nQ\n(three backticks)mermaid\nxyz`.
The opening delimiter occurs at offset 13 (reusing the closing backticks of
the first block), and no closing delimiter occurs at or after offset 13. -/
def inputC7 : List Char := fenced ['Q'] ++ "mermaid\nxyz".data

/-- A document in CRLF form whose fence would match, were its line endings LF. -/
def crlfDoc : List Char :=
  [tick, tick, tick, 'm', 'e', 'r', 'm', 'a', 'i', 'd', '\r', '\n', 'g', '\r', '\n',
    tick, tick, tick]

/-- A document whose opening fence carries a trailing space after `mermaid`. -/
def spaceDoc : List Char :=
  [tick, tick, tick, 'm', 'e', 'r', 'm', 'a', 'i', 'd', ' ', '\n', 'g', '\n',
    tick, tick, tick]

/-- A one-file filesystem mapping `doc.md` to the single character `x`. -/
def fsA : List Char → Option (List Char) :=
  fun p => if p = "doc.md".data then some ['x'] else none

/-- A one-file filesystem mapping `a.md` to the single character `x`. -/
def fsB : List Char → Option (List Char) :=
  fun p => if p = "a.md".data then some ['x'] else none

/-! ### Basic lemmas about the scanning primitives -/

lemma leadsWith_nil_left (s : List Char) : leadsWith [] s = true := by
  cases s <;> rfl

lemma leadsWith_cons_nil (c : Char) (t : List Char) : leadsWith (c :: t) [] = false := rfl

lemma leadsWith_cons_cons (c d : Char) (t s : List Char) :
    leadsWith (c :: t) (d :: s) = ((c == d) && leadsWith t s) := rfl

lemma leadsWith_cons_ne (c d : Char) (t s : List Char) (h : c ≠ d) :
    leadsWith (c :: t) (d :: s) = false := by
  rw [leadsWith_cons_cons, beq_eq_false_iff_ne.2 h, Bool.false_and]

lemma leadsWith_self_append (l m : List Char) : leadsWith l (l ++ m) = true := by
  induction l with
  | nil => exact leadsWith_nil_left m
  | cons c t ih => rw [List.cons_append, leadsWith_cons_cons, beq_self_eq_true, Bool.true_and, ih]

lemma leadsWith_split (pat : List Char) :
    ∀ s : List Char, leadsWith pat s = true → ∃ w, s = pat ++ w := by
  induction pat with
  | nil => intro s _; exact ⟨s, rfl⟩
  | cons c t ih =>
    intro s h
    cases s with
    | nil => simp [leadsWith_cons_nil] at h
    | cons d rest =>
      rw [leadsWith_cons_cons, Bool.and_eq_true] at h
      obtain ⟨w, hw⟩ := ih rest h.2
      exact ⟨w, by rw [hw, List.cons_append, eq_of_beq h.1]⟩

lemma leadsWith_nil_right (pat : List Char) (h : leadsWith pat [] = true) : pat = [] := by
  cases pat with
  | nil => rfl
  | cons c t => simp [leadsWith_cons_nil] at h

lemma drop_len_append (l m : List Char) : List.drop l.length (l ++ m) = m := by
  induction l with
  | nil => rfl
  | cons c t ih =>
    simp only [List.cons_append, List.length_cons, List.drop_succ_cons]
    exact ih

lemma noCh_nil (c : Char) : noCh c [] = true := rfl

lemma noCh_cons (c d : Char) (s : List Char) : noCh c (d :: s) = ((d != c) && noCh c s) := by
  simp [noCh]

lemma noCh_append (c : Char) (u v : List Char) :
    noCh c (u ++ v) = (noCh c u && noCh c v) := by
  simp [noCh, List.all_append]

lemma ne_of_noCh_cons (c d : Char) (s : List Char) (h : noCh c (d :: s) = true) : c ≠ d := by
  rw [noCh_cons, Bool.and_eq_true, bne_iff_ne] at h
  exact fun hc => h.1 (hc ▸ rfl)

lemma noCh_cons_tail (c d : Char) (s : List Char) (h : noCh c (d :: s) = true) : noCh c s = true := by
  rw [noCh_cons, Bool.and_eq_true] at h
  exact h.2

/-! ### Lemmas about `splitAtSub?` -/

lemma splitAtSub?_eq (pat : List Char) :
    ∀ (s b r : List Char), splitAtSub? pat s = some (b, r) → s = b ++ (pat ++ r) := by
  intro s
  induction s with
  | nil =>
    intro b r h
    simp only [splitAtSub?] at h
    by_cases hl : leadsWith pat [] = true
    · obtain ⟨w, hw⟩ := leadsWith_split pat [] hl
      rw [if_pos hl] at h
      obtain ⟨hb, hr⟩ := Prod.mk.injEq .. ▸ (Option.some.injEq .. ▸ h)
      rw [← hb, ← hr, List.nil_append, hw, drop_len_append, ← hw]
    · rw [if_neg hl] at h; exact absurd h (by simp)
  | cons c rest ih =>
    intro b r h
    simp only [splitAtSub?] at h
    by_cases hl : leadsWith pat (c :: rest) = true
    · obtain ⟨w, hw⟩ := leadsWith_split pat (c :: rest) hl
      rw [if_pos hl] at h
      obtain ⟨hb, hr⟩ := Prod.mk.injEq .. ▸ (Option.some.injEq .. ▸ h)
      rw [← hb, ← hr, List.nil_append, hw, drop_len_append]
    · rw [if_neg hl] at h
      cases hrec : splitAtSub? pat rest with
      | none => rw [hrec] at h; exact absurd h (by simp)
      | some p =>
        rw [hrec, Option.map_some'] at h
        obtain ⟨hb, hr⟩ := Prod.mk.injEq .. ▸ (Option.some.injEq .. ▸ h)
        rw [← hb, ← hr, List.cons_append, ← ih p.1 p.2 hrec]

lemma splitAtSub?_noCh (pat : List Char) (c : Char) (t : List Char)
    (hp : pat = c :: t) :
    ∀ (b r : List Char), noCh c b = true → splitAtSub? pat (b ++ (pat ++ r)) = some (b, r) := by
  intro b
  induction b with
  | nil =>
    intro r _
    have h1 : leadsWith pat (pat ++ r) = true := leadsWith_self_append pat r
    cases hpr : pat ++ r with
    | nil =>
      rw [hp] at hpr; exact absurd hpr (by simp)
    | cons d w =>
      simp only [List.nil_append, hpr, splitAtSub?, hpr ▸ h1, if_true]
      rw [← hpr, drop_len_append]
  | cons d b' ih =>
    intro r hb
    have hne : c ≠ d := ne_of_noCh_cons c d b' hb
    have h1 : leadsWith pat (d :: (b' ++ (pat ++ r))) = false := by
      rw [hp]; exact leadsWith_cons_ne c d t _ hne
    simp only [List.cons_append, splitAtSub?, List.append_eq, h1, Bool.false_eq_true, if_false,
      ih r (noCh_cons_tail c d b' hb), Option.map_some']

lemma occursB_noCh (c : Char) (t : List Char) :
    ∀ s : List Char, noCh c s = true → occursB (c :: t) s = false := by
  intro s
  induction s with
  | nil => intro _; rfl
  | cons d rest ih =>
    intro h
    simp only [occursB, leadsWith_cons_ne c d t rest (ne_of_noCh_cons c d rest h),
      ih (noCh_cons_tail c d rest h), Bool.or_self]

lemma splitAtSub?_none_occursB (pat : List Char) :
    ∀ s : List Char, occursB pat s = false → splitAtSub? pat s = none := by
  intro s
  induction s with
  | nil =>
    intro h
    simp only [occursB] at h
    simp only [splitAtSub?, h, Bool.false_eq_true, if_false]
  | cons c rest ih =>
    intro h
    simp only [occursB, Bool.or_eq_false_iff] at h
    simp only [splitAtSub?, h.1, Bool.false_eq_true, if_false, ih h.2, Option.map_none']

lemma occursB_split (pat : List Char) :
    ∀ s : List Char, occursB pat s = true → ∃ u v, s = u ++ (pat ++ v) := by
  intro s
  induction s with
  | nil =>
    intro h
    simp only [occursB] at h
    rw [leadsWith_nil_right pat h]
    exact ⟨[], [], rfl⟩
  | cons c rest ih =>
    intro h
    simp only [occursB, Bool.or_eq_true] at h
    cases h with
    | inl h =>
      obtain ⟨w, hw⟩ := leadsWith_split pat _ h
      exact ⟨[], w, by rw [hw]; rfl⟩
    | inr h =>
      obtain ⟨u, v, huv⟩ := ih h
      exact ⟨c :: u, v, by rw [huv]; rfl⟩

/-- The first occurrence of `\n`+three-backticks after a backtick-free block
body `x` is exactly at the end of `x`. -/
lemma splitAtSub?_closeFence :
    ∀ (x r : List Char), noCh tick x = true →
      splitAtSub? closeFence (x ++ (closeFence ++ r)) = some (x, r) := by
  intro x
  induction x with
  | nil =>
    intro r _
    simp only [List.nil_append]
    cases hcr : closeFence ++ r with
    | nil => exact absurd hcr (by simp [closeFence])
    | cons d w =>
      have h1 : leadsWith closeFence (closeFence ++ r) = true := leadsWith_self_append _ _
      simp only [splitAtSub?, hcr, hcr ▸ h1, if_true]
      rw [← hcr, drop_len_append]
  | cons d x' ih =>
    intro r hx
    have hd : tick ≠ d := ne_of_noCh_cons tick d x' hx
    have hx' : noCh tick x' = true := noCh_cons_tail tick d x' hx
    have h1 : leadsWith closeFence (d :: (x' ++ (closeFence ++ r))) = false := by
      by_cases hdn : d = '\n'
      · subst hdn
        rw [show closeFence = '\n' :: [tick, tick, tick] from rfl, leadsWith_cons_cons,
          beq_self_eq_true, Bool.true_and]
        cases x' with
        | nil =>
          rw [List.nil_append, List.cons_append]
          exact leadsWith_cons_ne tick '\n' _ _ (by decide)
        | cons e x'' =>
          rw [List.cons_append]
          exact leadsWith_cons_ne tick e _ _ (ne_of_noCh_cons tick e x'' hx')
      · rw [show closeFence = '\n' :: [tick, tick, tick] from rfl]
        exact leadsWith_cons_ne '\n' d _ _ (fun h => hdn h.symm)
    simp only [List.cons_append, splitAtSub?, List.append_eq, h1, Bool.false_eq_true, if_false,
      ih r hx', Option.map_some']

/-! ### Lemmas about `replaceAll` -/

/-- The fuel argument of `replaceAllF` is irrelevant once it is at least the
length of the string being scanned (for a nonempty pattern). -/
lemma replaceAllF_of_le (c : Char) (t rep : List Char) :
    ∀ (n : Nat) (s : List Char), s.length ≤ n →
      ∀ f, s.length ≤ f → replaceAllF f s (c :: t) rep = replaceAll s (c :: t) rep := by
  intro n
  induction n with
  | zero =>
    intro s hs f _
    rw [List.length_eq_zero.1 (Nat.le_zero.1 hs)]
    cases f <;> rfl
  | succ n ih =>
    intro s hs f hf
    cases s with
    | nil => cases f <;> rfl
    | cons d rest =>
      cases f with
      | zero => simp at hf
      | succ f' =>
        simp only [replaceAll]
        simp only [List.length_cons] at hs hf ⊢
        rw [replaceAllF, replaceAllF]
        by_cases hl : leadsWith (c :: t) (d :: rest) = true
        · rw [if_pos hl, if_pos hl]
          obtain ⟨w, hw⟩ := leadsWith_split (c :: t) (d :: rest) hl
          have hwlen : w.length ≤ rest.length := by
            have := congrArg List.length hw
            simp only [List.length_cons, List.length_append] at this
            omega
          have hdrop : List.drop (c :: t).length (d :: rest) = w := by
            rw [hw, drop_len_append]
          rw [hdrop]
          rw [ih w (by omega) f' (by omega), ih w (by omega) rest.length (by omega)]
        · rw [if_neg hl, if_neg hl]
          rw [ih rest (by omega) f' (by omega), ih rest (by omega) rest.length (by omega)]

/-- Python `replace` with a pattern whose first character does not occur in the
string leaves the string unchanged. -/
lemma replaceAll_noCh (c : Char) (t rep : List Char) :
    ∀ s : List Char, noCh c s = true → replaceAll s (c :: t) rep = s := by
  have key : ∀ (f : Nat) (s : List Char), noCh c s = true →
      replaceAllF f s (c :: t) rep = s := by
    intro f
    induction f with
    | zero => intro s _; rfl
    | succ f' ih =>
      intro s hs
      cases s with
      | nil => rfl
      | cons d rest =>
        rw [replaceAllF,
          if_neg (by rw [leadsWith_cons_ne c d t rest (ne_of_noCh_cons c d rest hs)]; simp),
          ih rest (noCh_cons_tail c d rest hs)]
  intro s hs
  exact key s.length s hs

/-- Python `replace` over a string of the form `u ++ pat ++ v` where the
pattern's first character does not occur in `u`: the occurrence at the junction
is replaced and scanning resumes after it. -/
lemma replaceAll_split (c : Char) (t rep : List Char) :
    ∀ (u v : List Char), noCh c u = true →
      replaceAll (u ++ ((c :: t) ++ v)) (c :: t) rep = u ++ (rep ++ replaceAll v (c :: t) rep) := by
  have key : ∀ (u : List Char) (v : List Char) (f : Nat),
      (u ++ ((c :: t) ++ v)).length ≤ f → noCh c u = true →
      replaceAllF f (u ++ ((c :: t) ++ v)) (c :: t) rep = u ++ (rep ++ replaceAll v (c :: t) rep) := by
    intro u
    induction u with
    | nil =>
      intro v f hf _
      simp only [List.nil_append, List.length_append, List.length_cons] at hf ⊢
      cases f with
      | zero => omega
      | succ f' =>
        rw [show (c :: t) ++ v = c :: (t ++ v) from rfl, replaceAllF,
          if_pos (by rw [← List.cons_append]; exact leadsWith_self_append (c :: t) v),
          ← List.cons_append, drop_len_append,
          replaceAllF_of_le c t rep v.length v (Nat.le_refl _) f' (by omega)]
    | cons d u' ih =>
      intro v f hf hu
      cases f with
      | zero => simp at hf
      | succ f' =>
        rw [List.cons_append, replaceAllF,
          if_neg (by rw [leadsWith_cons_ne c d t _ (ne_of_noCh_cons c d u' hu)]; simp),
          ih v f' (by simp only [List.length_cons, List.length_append] at hf ⊢; omega)
            (noCh_cons_tail c d u' hu), List.cons_append]
  intro u v hu
  exact key u v (u ++ ((c :: t) ++ v)).length (Nat.le_refl _) hu

/-! ### Lemmas about `findBlocks` -/

lemma length_of_splitAtSub? (pat s b r : List Char) (h : splitAtSub? pat s = some (b, r)) :
    b.length + pat.length + r.length = s.length := by
  have := congrArg List.length (splitAtSub?_eq pat s b r h)
  simp only [List.length_append] at this
  omega

/-- The fuel argument of `findBlocksF` is irrelevant once it is at least the
length of the string being scanned. -/
lemma findBlocksF_of_le :
    ∀ (n : Nat) (s : List Char), s.length ≤ n →
      ∀ f, s.length ≤ f → findBlocksF f s = findBlocks s := by
  intro n
  induction n with
  | zero =>
    intro s hs f _
    rw [List.length_eq_zero.1 (Nat.le_zero.1 hs), findBlocks]
    cases f with
    | zero => rfl
    | succ f' =>
      show findBlocksF (f' + 1) [] = findBlocksF 0 []
      rw [findBlocksF, findBlocksF]
      have : splitAtSub? openFence [] = none := by
        simp [splitAtSub?, openFence, leadsWith]
      rw [this]
  | succ n ih =>
    intro s hs f hf
    cases s with
    | nil => exact ih [] (by simp) f hf
    | cons d rest =>
      cases f with
      | zero => simp at hf
      | succ f' =>
        rw [findBlocks, List.length_cons]
        cases h1 : splitAtSub? openFence (d :: rest) with
        | none => simp only [findBlocksF, h1]
        | some p1 =>
          obtain ⟨pre, rest1⟩ := p1
          cases h2 : splitAtSub? closeFence rest1 with
          | none => simp only [findBlocksF, h1, h2]
          | some p2 =>
            obtain ⟨content, rest2⟩ := p2
            simp only [findBlocksF, h1, h2, List.cons.injEq, true_and]
            have l1 := length_of_splitAtSub? openFence (d :: rest) pre rest1 h1
            have l2 := length_of_splitAtSub? closeFence rest1 content rest2 h2
            simp only [List.length_cons] at l1 hf hs
            have hop : openFence.length = 11 := rfl
            have hcl : closeFence.length = 4 := rfl
            rw [hop] at l1; rw [hcl] at l2
            rw [ih rest2 (by omega) f' (by omega), ih rest2 (by omega) rest.length (by omega)]

lemma findBlocks_nil_open (s : List Char) (h : splitAtSub? openFence s = none) :
    findBlocks s = [] := by
  cases s with
  | nil => rfl
  | cons c rest =>
    rw [findBlocks, List.length_cons]
    simp only [findBlocksF, h]

lemma findBlocks_nil_close (s p rest : List Char)
    (h1 : splitAtSub? openFence s = some (p, rest))
    (h2 : splitAtSub? closeFence rest = none) :
    findBlocks s = [] := by
  cases s with
  | nil =>
    have : splitAtSub? openFence ([] : List Char) = none := by
      simp [splitAtSub?, openFence, leadsWith]
    rw [this] at h1
    exact absurd h1 (by simp)
  | cons c r =>
    rw [findBlocks, List.length_cons]
    simp only [findBlocksF, h1, h2]

lemma findBlocks_step (s p rest content rest2 : List Char)
    (h1 : splitAtSub? openFence s = some (p, rest))
    (h2 : splitAtSub? closeFence rest = some (content, rest2)) :
    findBlocks s = content :: findBlocks rest2 := by
  cases s with
  | nil =>
    have : splitAtSub? openFence ([] : List Char) = none := by
      simp [splitAtSub?, openFence, leadsWith]
    rw [this] at h1
    exact absurd h1 (by simp)
  | cons c r =>
    rw [findBlocks, List.length_cons]
    simp only [findBlocksF, h1, h2, List.cons.injEq, true_and]
    have l1 := length_of_splitAtSub? openFence (c :: r) p rest h1
    have l2 := length_of_splitAtSub? closeFence rest content rest2 h2
    simp only [List.length_cons] at l1
    have hop : openFence.length = 11 := rfl
    have hcl : closeFence.length = 4 := rfl
    rw [hop] at l1; rw [hcl] at l2
    rw [findBlocksF_of_le rest2.length rest2 (Nat.le_refl _) r.length (by omega)]

lemma openFence_cons : openFence = tick :: [tick, tick, 'm', 'e', 'r', 'm', 'a', 'i', 'd', '\n'] := rfl

/-- Every string without backticks contains no diagram block. -/
lemma findBlocks_nil_noTick (s : List Char) (h : noCh tick s = true) : findBlocks s = [] :=
  findBlocks_nil_open s (splitAtSub?_none_occursB openFence s
    (openFence_cons ▸ occursB_noCh tick _ s h))

/-- Scanning step over one well-delimited, backtick-free block. -/
lemma findBlocks_fenced (a x r : List Char) (ha : noCh tick a = true) (hx : noCh tick x = true) :
    findBlocks (a ++ (fenced x ++ r)) = x :: findBlocks r := by
  have hshape : a ++ (fenced x ++ r) = a ++ (openFence ++ (x ++ (closeFence ++ r))) := by
    simp [fenced, List.append_assoc]
  rw [hshape]
  exact findBlocks_step _ a (x ++ (closeFence ++ r)) x r
    (splitAtSub?_noCh openFence tick _ openFence_cons a (x ++ (closeFence ++ r)) ha)
    (splitAtSub?_closeFence x r hx)

/-- Every extracted block body occurs in the input in exactly its fenced form:
the input splits as `u ++ openFence ++ b ++ closeFence ++ v`. -/
lemma mem_findBlocksF :
    ∀ (f : Nat) (s b : List Char), b ∈ findBlocksF f s →
      ∃ u v, s = u ++ (openFence ++ (b ++ (closeFence ++ v))) := by
  intro f
  induction f with
  | zero => intro s b h; exact absurd h (by simp [findBlocksF])
  | succ f' ih =>
    intro s b h
    cases h1 : splitAtSub? openFence s with
    | none => simp only [findBlocksF, h1] at h; exact absurd h (by simp)
    | some p1 =>
      obtain ⟨pre, rest1⟩ := p1
      cases h2 : splitAtSub? closeFence rest1 with
      | none => simp only [findBlocksF, h1, h2] at h; exact absurd h (by simp)
      | some p2 =>
        obtain ⟨content, rest2⟩ := p2
        simp only [findBlocksF, h1, h2] at h
        have hs : s = pre ++ (openFence ++ rest1) := splitAtSub?_eq openFence s pre rest1 h1
        have hr : rest1 = content ++ (closeFence ++ rest2) :=
          splitAtSub?_eq closeFence rest1 content rest2 h2
        rcases List.mem_cons.1 h with hb | hb
        · subst hb
          exact ⟨pre, rest2, by rw [hs, hr]⟩
        · obtain ⟨u', v', huv⟩ := ih rest2 b hb
          refine ⟨pre ++ (openFence ++ (content ++ (closeFence ++ u'))), v', ?_⟩
          rw [hs, hr, huv]
          simp [List.append_assoc]

/-! ### Zero-block pass-through -/

lemma pass1_nil (s : List Char) : pass1 s [] = s := rfl

lemma pass2_nil (h : List Char) : pass2 h [] = h := rfl

/-- When no diagram block is matched, the whole transform is exactly one call
to the external renderer on the unmodified text. -/
lemma transformBody_nil (render : List Char → List Char) (s : List Char)
    (h : findBlocks s = []) : transformBody render s = render s := by
  rw [transformBody, h, pass1_nil, pass2_nil]

/-! ### CRLF documents contain no opening delimiter -/

lemma crlfAfter_dn : ∀ (l : List Char) (p : Char) (v : List Char),
    crlfAfter p (l ++ ('d' :: '\n' :: v)) = false := by
  intro l
  induction l with
  | nil =>
    intro p v
    rw [List.nil_append]
    show (((('d' : Char) != '\n') || (p == '\r')) && crlfAfter 'd' ('\n' :: v)) = false
    have : crlfAfter 'd' ('\n' :: v) = false := by
      show (((('\n' : Char) != '\n') || (('d' : Char) == '\r')) && crlfAfter '\n' v) = false
      rw [show ((('\n' : Char) != '\n') : Bool) = false by decide,
        show ((('d' : Char) == '\r') : Bool) = false by decide]
      rfl
    rw [this, Bool.and_false]
  | cons e l' ih =>
    intro p v
    rw [List.cons_append]
    show (((e != '\n') || (p == '\r')) && crlfAfter e (l' ++ ('d' :: '\n' :: v))) = false
    rw [ih e v, Bool.and_false]

lemma crlfOnly_no_openFence (u v : List Char) :
    crlfOnly (u ++ (openFence ++ v)) = false := by
  have hshape : u ++ (openFence ++ v) =
      (u ++ [tick, tick, tick, 'm', 'e', 'r', 'm', 'a', 'i']) ++ ('d' :: '\n' :: v) := by
    simp [openFence, List.append_assoc]
  rw [hshape]
  cases hcase : u ++ [tick, tick, tick, 'm', 'e', 'r', 'm', 'a', 'i'] with
  | nil => exact absurd (congrArg List.length hcase) (by simp)
  | cons c t =>
    rw [List.cons_append]
    show ((c != '\n') && crlfAfter c (t ++ ('d' :: '\n' :: v))) = false
    rw [crlfAfter_dn t c v, Bool.and_false]

lemma crlfOnly_no_occurs (s : List Char) (h : crlfOnly s = true) :
    occursB openFence s = false := by
  by_contra hocc
  obtain ⟨u, v, huv⟩ := occursB_split openFence s
    (Bool.not_eq_false _ ▸ hocc)
  rw [huv, crlfOnly_no_openFence u v] at h
  exact absurd h (by simp)

/-! ### The two-identical-blocks family -/

lemma pass1_pair (s x : List Char) :
    pass1 s [x, x] =
      replaceAll (replaceAll s (fenced x) (placeholderL 0)) (fenced x) (placeholderL 1) := rfl

lemma pass2_pair (h x : List Char) :
    pass2 h [x, x] =
      replaceAll (replaceAll h (placeholderL 0) (mermaidDiv x)) (placeholderL 1) (mermaidDiv x) := rfl

lemma fenced_cons (x : List Char) :
    fenced x = tick :: ([tick, tick, 'm', 'e', 'r', 'm', 'a', 'i', 'd', '\n'] ++ (x ++ closeFence)) := rfl

lemma placeholderL_cons (i : Nat) :
    placeholderL i = 'M' ::
      (['E', 'R', 'M', 'A', 'I', 'D', '_', 'P', 'L', 'A', 'C', 'E', 'H', 'O', 'L', 'D', 'E', 'R', '_']
        ++ (Nat.repr i).data) := rfl

lemma noCh_tick_ph0 : noCh tick (placeholderL 0) = true := by decide

lemma noCh_M_divOpen : noCh 'M' divOpen = true := by decide

lemma noCh_M_divClose : noCh 'M' divClose = true := by decide

/-- The extraction pass on an input with two identical well-delimited blocks:
the first iteration replaces BOTH occurrences of the fenced text with
`MERMAID_PLACEHOLDER_0` (Python `replace` is per-text), the second iteration
finds nothing, so `MERMAID_PLACEHOLDER_1` is never inserted. -/
lemma pass1_two_identical (a m c x : List Char)
    (ha : noCh tick a = true) (hm : noCh tick m = true) (hc : noCh tick c = true) :
    pass1 (a ++ (fenced x ++ (m ++ (fenced x ++ c)))) [x, x] =
      a ++ (placeholderL 0 ++ (m ++ (placeholderL 0 ++ c))) := by
  have hwhole : noCh tick (a ++ (placeholderL 0 ++ (m ++ (placeholderL 0 ++ c)))) = true := by
    simp [noCh_append, ha, hm, hc, noCh_tick_ph0]
  rw [pass1_pair, fenced_cons]
  rw [replaceAll_split tick _ (placeholderL 0) a _ ha]
  rw [replaceAll_split tick _ (placeholderL 0) m _ hm]
  rw [replaceAll_noCh tick _ (placeholderL 0) c hc]
  rw [replaceAll_noCh tick _ (placeholderL 1) _ hwhole]

/-- The re-insertion pass on a rendered text in which `MERMAID_PLACEHOLDER_0`
occurs twice: both occurrences receive the container of block 0 (whose body
equals block 1's body, the blocks being identical); the iteration for
`MERMAID_PLACEHOLDER_1` finds nothing and changes nothing. -/
lemma pass2_two_identical (x u v w : List Char)
    (hu : noCh 'M' u = true) (hv : noCh 'M' v = true) (hw : noCh 'M' w = true)
    (hxM : noCh 'M' x = true) :
    pass2 (u ++ (placeholderL 0 ++ (v ++ (placeholderL 0 ++ w)))) [x, x] =
      u ++ (mermaidDiv x ++ (v ++ (mermaidDiv x ++ w))) := by
  have hfinal : noCh 'M' (u ++ (mermaidDiv x ++ (v ++ (mermaidDiv x ++ w)))) = true := by
    simp [noCh_append, mermaidDiv, hu, hv, hw, hxM, noCh_M_divOpen, noCh_M_divClose]
  rw [pass2_pair, placeholderL_cons 0]
  rw [replaceAll_split 'M' _ (mermaidDiv x) u _ hu]
  rw [replaceAll_split 'M' _ (mermaidDiv x) v _ hv]
  rw [replaceAll_noCh 'M' _ (mermaidDiv x) w hw]
  rw [placeholderL_cons 1]
  exact replaceAll_noCh 'M' _ (mermaidDiv x) _ hfinal

lemma findBlocks_two_identical (a m c x : List Char)
    (ha : noCh tick a = true) (hm : noCh tick m = true) (hc : noCh tick c = true)
    (hx : noCh tick x = true) :
    findBlocks (a ++ (fenced x ++ (m ++ (fenced x ++ c)))) = [x, x] := by
  rw [findBlocks_fenced a x _ ha hx, findBlocks_fenced m x c hm hx, findBlocks_nil_noTick c hc]

/-! ## The claims -/

/-- C1: the claim ("for every input with N diagram blocks the output contains
exactly N containers, the i-th wrapping the i-th block's source text") fails on
the code.  Evaluation at `input11` (eleven blocks, bodies `0`..`9`,`X`, with an
identity renderer preserving the placeholders): eleven blocks are extracted and
the last one's body is `X`, yet the output contains no container wrapping `X`;
instead it contains block 1's container followed by a stray `0` — the
re-insertion `replace` of `MERMAID_PLACEHOLDER_1` also consumed the prefix of
`MERMAID_PLACEHOLDER_10`. -/
theorem C1_prefix_collision :
    (findBlocks input11).length = 11 ∧
    (findBlocks input11).getLast? = some ['X'] ∧
    occursB (mermaidDiv ['X']) (transformBody (fun h => h) input11) = false ∧
    occursB (mermaidDiv ['1'] ++ ['0']) (transformBody (fun h => h) input11) = true := by
  decide

/-- C2 counterexample: on an input with two byte-identical blocks, both blocks
are extracted, but the extraction pass replaces BOTH occurrences of the fenced
text with `MERMAID_PLACEHOLDER_0` (Python `replace` is per-text), and
`MERMAID_PLACEHOLDER_1` is never inserted — refuting "each extracted block is
tracked by its own placeholder (replacement is per-index, not per-text)". -/
theorem C2_counterexample :
    findBlocks input2dup = [['x'], ['x']] ∧
    pass1 input2dup (findBlocks input2dup) =
      placeholderL 0 ++ (['\n'] ++ placeholderL 0) ∧
    occursB (placeholderL 1) (pass1 input2dup (findBlocks input2dup)) = false := by
  decide

/-- C2 (amended): replacement is per-text, not per-index.  On an input with two
identical well-delimited blocks, the number of placeholder-token occurrences
inserted equals the number of blocks extracted, but all occurrences carry the
placeholder of the smallest index with that text, and the later duplicate
index's placeholder is never inserted: the extraction pass produces exactly
`a ++ MERMAID_PLACEHOLDER_0 ++ m ++ MERMAID_PLACEHOLDER_0 ++ c`. -/
theorem C2_per_text_replacement (a m c x : List Char)
    (ha : noCh tick a = true) (hm : noCh tick m = true) (hc : noCh tick c = true)
    (hx : noCh tick x = true) :
    findBlocks (a ++ (fenced x ++ (m ++ (fenced x ++ c)))) = [x, x] ∧
    pass1 (a ++ (fenced x ++ (m ++ (fenced x ++ c))))
        (findBlocks (a ++ (fenced x ++ (m ++ (fenced x ++ c))))) =
      a ++ (placeholderL 0 ++ (m ++ (placeholderL 0 ++ c))) := by
  have hfb := findBlocks_two_identical a m c x ha hm hc hx
  exact ⟨hfb, by rw [hfb, pass1_two_identical a m c x ha hm hc]⟩

/-- C2 witness: the amended statement at a concrete instance. -/
theorem C2_witness :
    findBlocks (['h', '\n'] ++ (fenced ['d', 'i', 'a', 'g'] ++ (['\n'] ++
        (fenced ['d', 'i', 'a', 'g'] ++ ['\n', 'z'])))) = [['d', 'i', 'a', 'g'], ['d', 'i', 'a', 'g']] ∧
    pass1 (['h', '\n'] ++ (fenced ['d', 'i', 'a', 'g'] ++ (['\n'] ++
        (fenced ['d', 'i', 'a', 'g'] ++ ['\n', 'z']))))
      (findBlocks (['h', '\n'] ++ (fenced ['d', 'i', 'a', 'g'] ++ (['\n'] ++
        (fenced ['d', 'i', 'a', 'g'] ++ ['\n', 'z']))))) =
      ['h', '\n'] ++ (placeholderL 0 ++ (['\n'] ++ (placeholderL 0 ++ ['\n', 'z']))) :=
  C2_per_text_replacement ['h', '\n'] ['\n'] ['\n', 'z'] ['d', 'i', 'a', 'g']
    (by decide) (by decide) (by decide) (by decide)

/-- C3: when the diagram-block pattern matches zero blocks, the transform is a
pass-through: its body output equals the external renderer's direct output on
the unmodified input. -/
theorem C3_pass_through (render : List Char → List Char) (s : List Char)
    (h : findBlocks s = []) : transformBody render s = render s :=
  transformBody_nil render s h

/-- C3 witness: pass-through on a concrete diagram-free document. -/
theorem C3_witness :
    transformBody (fun h => h) "# Title and some text".data = "# Title and some text".data :=
  C3_pass_through (fun h => h) "# Title and some text".data (by decide)

/-- C4: round trip.  Every block body extracted by the scan occurs verbatim in
the input in fenced form (the recorded source text is byte-for-byte the
captured text), and the container built at re-insertion wraps exactly that
recorded text between the fixed opening and closing markup. -/
theorem C4_round_trip (s b : List Char) (hb : b ∈ findBlocks s) :
    (∃ u v, s = u ++ (openFence ++ (b ++ (closeFence ++ v)))) ∧
    mermaidDiv b = divOpen ++ (b ++ divClose) :=
  ⟨mem_findBlocksF s.length s b hb, rfl⟩

/-- C4 witness: the round-trip statement at a concrete one-block input. -/
theorem C4_witness :
    (∃ u v, fenced ['g'] = u ++ (openFence ++ (['g'] ++ (closeFence ++ v)))) ∧
    mermaidDiv ['g'] = divOpen ++ (['g'] ++ divClose) :=
  C4_round_trip (fenced ['g']) ['g'] (by decide)

/-- C5 counterexample: the PDF pipeline performs no diagram processing, so on
an input consisting of one diagram block its body HTML (the renderer's direct
output) differs from the HTML pipeline's body (which wraps the block in a
container element) — already for an identity renderer. -/
theorem C5_counterexample :
    convert_markdown_to_pdf_html (fun h => h) (fenced ['g']) ≠
      transformBody (fun h => h) (fenced ['g']) := by
  decide

/-- C5 (amended): the two pipelines' body content agrees exactly on inputs with
zero diagram blocks; the PDF path feeds the renderer's direct output to the
layout engine with no placeholder substitution. -/
theorem C5_agree_without_diagrams (render : List Char → List Char) (s : List Char)
    (h : findBlocks s = []) :
    transformBody render s = convert_markdown_to_pdf_html render s :=
  transformBody_nil render s h

/-- C5 witness: agreement on a concrete diagram-free document. -/
theorem C5_witness :
    transformBody (fun h => h) "plain text".data =
      convert_markdown_to_pdf_html (fun h => h) "plain text".data :=
  C5_agree_without_diagrams (fun h => h) "plain text".data (by decide)

/-- C6: an input with two byte-identical, well-delimited diagram blocks yields
two distinct container elements, each in the relative position its block
occupied.  The renderer is opaque; the hypothesis `hr` states that it carried
the two placeholder occurrences through in order (`u`,`v`,`w` its otherwise
arbitrary rendered segments). -/
theorem C6_two_identical_blocks (render : List Char → List Char) (a m c x u v w : List Char)
    (ha : noCh tick a = true) (hm : noCh tick m = true) (hc : noCh tick c = true)
    (hx : noCh tick x = true)
    (hu : noCh 'M' u = true) (hv : noCh 'M' v = true) (hw : noCh 'M' w = true)
    (hxM : noCh 'M' x = true)
    (hr : render (a ++ (placeholderL 0 ++ (m ++ (placeholderL 0 ++ c)))) =
      u ++ (placeholderL 0 ++ (v ++ (placeholderL 0 ++ w)))) :
    findBlocks (a ++ (fenced x ++ (m ++ (fenced x ++ c)))) = [x, x] ∧
    transformBody render (a ++ (fenced x ++ (m ++ (fenced x ++ c)))) =
      u ++ (mermaidDiv x ++ (v ++ (mermaidDiv x ++ w))) := by
  have hfb := findBlocks_two_identical a m c x ha hm hc hx
  refine ⟨hfb, ?_⟩
  rw [transformBody, hfb, pass1_two_identical a m c x ha hm hc, hr,
    pass2_two_identical x u v w hu hv hw hxM]

/-- C6 witness: two identical blocks at a concrete input with the identity
renderer; the output has two distinct containers in the original positions. -/
theorem C6_witness :
    findBlocks (['t'] ++ (fenced ['g'] ++ (['m'] ++ (fenced ['g'] ++ ['c'])))) = [['g'], ['g']] ∧
    transformBody (fun h => h) (['t'] ++ (fenced ['g'] ++ (['m'] ++ (fenced ['g'] ++ ['c'])))) =
      ['t'] ++ (mermaidDiv ['g'] ++ (['m'] ++ (mermaidDiv ['g'] ++ ['c']))) :=
  C6_two_identical_blocks (fun h => h) ['t'] ['m'] ['c'] ['g'] ['t'] ['m'] ['c']
    (by decide) (by decide) (by decide) (by decide)
    (by decide) (by decide) (by decide) (by decide) rfl

/-- C7 counterexample: in `inputC7` an opening fence occurs at offset 13 with
no closing fence after it, so it is unmatched and gets no placeholder — but its
text is NOT passed through unmodified: its three opening backticks are also the
closing backticks of the matched block `Q`, so the extraction pass consumes
them, and the text handed to the renderer contains no opening fence at all. -/
theorem C7_counterexample :
    occursB openFence (List.drop 13 inputC7) = true ∧
    occursB closeFence (List.drop 13 inputC7) = false ∧
    findBlocks inputC7 = [['Q']] ∧
    occursB openFence (pass1 inputC7 (findBlocks inputC7)) = false := by
  decide

/-- C7 (amended): an unterminated opening fence is not matched, no placeholder
is inserted, and — provided it does not share characters with a matched block's
delimiters (here: nothing before it contains a backtick and no closing
delimiter follows it) — the whole text reaches the renderer unmodified. -/
theorem C7_unterminated_fence (render : List Char → List Char) (u v : List Char)
    (hu : noCh tick u = true) (hv : occursB closeFence v = false) :
    findBlocks (u ++ (openFence ++ v)) = [] ∧
    pass1 (u ++ (openFence ++ v)) (findBlocks (u ++ (openFence ++ v))) = u ++ (openFence ++ v) ∧
    transformBody render (u ++ (openFence ++ v)) = render (u ++ (openFence ++ v)) := by
  have h1 : splitAtSub? openFence (u ++ (openFence ++ v)) = some (u, v) :=
    splitAtSub?_noCh openFence tick _ openFence_cons u v hu
  have h2 : splitAtSub? closeFence v = none := splitAtSub?_none_occursB closeFence v hv
  have hfb := findBlocks_nil_close _ u v h1 h2
  exact ⟨hfb, by rw [hfb, pass1_nil], transformBody_nil render _ hfb⟩

/-- C7 witness: the amended statement at a concrete unterminated input. -/
theorem C7_witness :
    findBlocks ("intro\n".data ++ (openFence ++ "graph\n".data)) = [] ∧
    pass1 ("intro\n".data ++ (openFence ++ "graph\n".data))
        (findBlocks ("intro\n".data ++ (openFence ++ "graph\n".data))) =
      "intro\n".data ++ (openFence ++ "graph\n".data) ∧
    transformBody (fun h => h) ("intro\n".data ++ (openFence ++ "graph\n".data)) =
      "intro\n".data ++ (openFence ++ "graph\n".data) :=
  C7_unterminated_fence (fun h => h) "intro\n".data "graph\n".data (by decide) (by decide)

/-- C8: when reading the Markdown source fails, the error propagates to the
caller and nothing is written: the run returns the error and the filesystem
(in particular the destination path) is unchanged. -/
theorem C8_read_failure (render : List Char → List Char)
    (wrap : List Char → List Char → List Char)
    (fs : List Char → Option (List Char)) (md html : List Char)
    (h : fs md = none) :
    convert_markdown_to_html render wrap fs md html = Except.error () ∧
    ∀ p, finalFS fs (convert_markdown_to_html render wrap fs md html) p = fs p := by
  have hconv : convert_markdown_to_html render wrap fs md html = Except.error () := by
    simp only [convert_markdown_to_html, h]
  exact ⟨hconv, fun p => by simp only [hconv, finalFS]⟩

/-- C8 witness: read failure on an empty filesystem. -/
theorem C8_witness :
    convert_markdown_to_html (fun h => h) (fun _ b => b) (fun _ => none)
      "a.md".data "a.html".data = Except.error () ∧
    finalFS (fun _ => none)
      (convert_markdown_to_html (fun h => h) (fun _ b => b) (fun _ => none)
        "a.md".data "a.html".data) "a.html".data = none :=
  ⟨(C8_read_failure (fun h => h) (fun _ b => b) (fun _ => none)
      "a.md".data "a.html".data rfl).1,
   (C8_read_failure (fun h => h) (fun _ b => b) (fun _ => none)
      "a.md".data "a.html".data rfl).2 "a.html".data⟩

/-- C9: matching requires the exact delimiters: a document in CRLF form (every
LF preceded by CR), or any document in which the exact opening delimiter
`(three backticks)mermaid` + LF never occurs (e.g. trailing whitespace after
the marker), yields zero extracted blocks and is handed entirely to the
external renderer; moreover any block that IS extracted sits in the input
between the exact delimiters (LF-terminated opening fence, LF-preceded
closing fence). -/
theorem C9_exact_delimiters (render : List Char → List Char) (s : List Char) :
    (crlfOnly s = true → findBlocks s = [] ∧ transformBody render s = render s) ∧
    (occursB openFence s = false → findBlocks s = [] ∧ transformBody render s = render s) ∧
    (∀ b, b ∈ findBlocks s → ∃ u v, s = u ++ (openFence ++ (b ++ (closeFence ++ v)))) := by
  have part2 : occursB openFence s = false →
      findBlocks s = [] ∧ transformBody render s = render s := by
    intro h
    have hfb := findBlocks_nil_open s (splitAtSub?_none_occursB openFence s h)
    exact ⟨hfb, transformBody_nil render s hfb⟩
  exact ⟨fun hc => part2 (crlfOnly_no_occurs s hc), part2,
    fun b hb => mem_findBlocksF s.length s b hb⟩

/-- C9 witness: a CRLF document and a trailing-whitespace document, both with
zero extracted blocks and full pass-through. -/
theorem C9_witness :
    (crlfOnly crlfDoc = true ∧ findBlocks crlfDoc = []) ∧
    (occursB openFence spaceDoc = false ∧ transformBody (fun h => h) spaceDoc = spaceDoc) :=
  ⟨⟨by decide, ((C9_exact_delimiters (fun h => h) crlfDoc).1 (by decide)).1⟩,
   ⟨by decide, ((C9_exact_delimiters (fun h => h) spaceDoc).2.1 (by decide)).2⟩⟩

/-- C10 counterexample: a run in which the caller passes the source path as the
destination path overwrites the source Markdown file, refuting "for every run
the source Markdown file's content is unchanged" (the written document differs
from the source whenever the wrapper adds anything). -/
theorem C10_counterexample :
    finalFS fsA (convert_markdown_to_html (fun h => h) (fun _ b => 'W' :: b) fsA
      "doc.md".data "doc.md".data) "doc.md".data ≠ fsA "doc.md".data := by
  decide

/-- C10 (amended): provided the destination path differs from the source path,
a successful run writes only the destination file: the source file and every
other path keep their contents, and the destination holds the wrapped
transformed body. -/
theorem C10_frame (render : List Char → List Char)
    (wrap : List Char → List Char → List Char)
    (fs : List Char → Option (List Char)) (md html content : List Char)
    (hneq : md ≠ html) (h : fs md = some content) :
    ∃ fs2,
      convert_markdown_to_html render wrap fs md html = Except.ok fs2 ∧
      fs2 md = fs md ∧
      fs2 html = some (wrap md (transformBody render content)) ∧
      ∀ p, p ≠ html → fs2 p = fs p := by
  refine ⟨fun p => if p = html then some (wrap md (transformBody render content)) else fs p,
    ?_, ?_, ?_, ?_⟩
  · simp only [convert_markdown_to_html, h]
  · simp [hneq]
  · simp
  · intro p hp; simp [hp]

/-- C10 witness: the frame property at a concrete two-path run. -/
theorem C10_witness :
    ∃ fs2,
      convert_markdown_to_html (fun h => h) (fun _ b => b) fsB
        "a.md".data "a.html".data = Except.ok fs2 ∧
      fs2 "a.md".data = fsB "a.md".data ∧
      fs2 "a.html".data = some (transformBody (fun h => h) ['x']) ∧
      ∀ p, p ≠ "a.html".data → fs2 p = fsB p :=
  C10_frame (fun h => h) (fun _ b => b) fsB "a.md".data "a.html".data ['x']
    (by decide) (by decide)
